import Mathlib

/-!
Verification of the `cols` package-discovery tool (src/main.rs).

The development shallowly embeds the Rust source:

* the filesystem is modelled as a finite tree of nodes (`Node`); a directory
  entry read from `fs::read_dir` is `some (name, node)` and an `Err` element
  yielded by the `ReadDir` iterator (skipped by `.flatten()`) is `none`;
* `check_path` (`SearchOutcome` classification), `parse_package`,
  `find_packages`, `find_wrapper` and `preprocess_paths` are translated
  function by function;
* the result aggregation in `main` (`sorted_unstable_by_key` + `dedup_by`)
  is embedded as `aggregate`;
* `try_symlink` and the symlink loop of `main` are embedded over a small
  association-list filesystem state (`SymFS`).

Paths are lists of components (`List String`), relative to the scanned root.
-/

namespace Cols

/-- Result of parsing the manifest markup: the fields the program consumes.
`name` is `none` when the document has no name element (serde then fails,
since `name` has no default); `export` is `none` when the export section is
absent, and `some none` when the section is present without a build-type
field. -/
structure ManifestXml where
  name : Option String
  «export» : Option (Option String)
deriving DecidableEq, Repr

/-- Contents of a file node, as far as the program can observe them:
`unreadable` models an I/O failure opening the file, `malformed` a document
rejected by the XML parser, `manifest m` a well-formed document. -/
inductive FileContent where
  | unreadable : FileContent
  | malformed : FileContent
  | manifest (m : ManifestXml) : FileContent
deriving DecidableEq, Repr

mutual

/-- A filesystem node: a file, or a directory with a readability flag
(`fs::read_dir` fails on an unreadable directory) and a list of entries. -/
inductive Node where
  | file (content : FileContent) : Node
  | dir (readable : Bool) (ents : EntList) : Node
deriving DecidableEq, Repr

/-- The entries of a directory. `errCons rest` models an `Err` element
yielded by the `ReadDir` iterator (a race-deleted entry), which
`.flatten()` skips; `cons name node rest` a successful `DirEntry`. -/
inductive EntList where
  | nil : EntList
  | errCons (rest : EntList) : EntList
  | cons (name : String) (node : Node) (rest : EntList) : EntList
deriving DecidableEq, Repr

end

/-- Build an entry list from name-node pairs. -/
def entsOf : List (String × Node) → EntList
  | [] => EntList.nil
  | (n, x) :: r => EntList.cons n x (entsOf r)

/-- First entry with the given name, mirroring filesystem name lookup
(`Path::join` + `exists()` / `File::open`). -/
def entryLookup (ents : EntList) (nm : String) : Option Node :=
  match ents with
  | EntList.nil => none
  | EntList.errCons rest => entryLookup rest nm
  | EntList.cons n node rest => if n = nm then some node else entryLookup rest nm

/-- Resolve a component path from a root node. -/
def lookup (root : Node) : List String → Option Node
  | [] => some root
  | c :: rest =>
    match root with
    | Node.file _ => none
    | Node.dir _ ents =>
      match entryLookup ents c with
      | some child => lookup child rest
      | none => none

/-- Rust: `fn default_build_type() -> String { "ros.catkin".to_string() }` -/
def default_build_type : String := "ros.catkin"

/-- Rust: `struct Export { #[serde(default = "default_build_type")] build_type: String }` -/
structure Export where
  build_type : String
deriving DecidableEq, Repr

/-- Rust: `fn default_export() -> Export` -/
def default_export : Export := { build_type := default_build_type }

/-- Rust: `struct Package { name: String, #[serde(default = "default_export")] export: Export }` -/
structure Package where
  name : String
  «export» : Export
deriving DecidableEq, Repr

/-- Rust: `struct Entry { pkg: Package, path: PathBuf }` -/
structure Entry where
  pkg : Package
  path : List String
deriving DecidableEq, Repr

/-- Rust: `enum SearchOutcome { Found(Entry), Ignored, IsFile, Recurse }` -/
inductive SearchOutcome where
  | Found (e : Entry) : SearchOutcome
  | Ignored : SearchOutcome
  | IsFile : SearchOutcome
  | Recurse : SearchOutcome
deriving DecidableEq, Repr

/-- Rust's `str::starts_with('.')`: the first character is a dot.
(Defined over the character list so that concrete instances evaluate.) -/
def startsWithDot (s : String) : Bool :=
  match s.data with
  | [] => false
  | c :: _ => c == '.'

/-- Rust: `static IGNORE_MARKERS: [&str; 3]`. -/
def IGNORE_MARKERS : List String := ["COLCON_IGNORE", "CATKIN_IGNORE", "AMENT_IGNORE"]

/-- Embeds `parse_package` together with the serde `Deserialize` semantics of
`Package`: `File::open` failure and malformed markup are errors; a document
without a name element is an error (`name` has no serde default); a missing
export section yields `default_export`, a present export section with no
build-type field yields `default_build_type`. Opening a directory node also
fails (reading from it cannot yield a document). -/
def parse_package (n : Node) : Except Unit Package :=
  match n with
  | Node.dir _ _ => Except.error ()
  | Node.file FileContent.unreadable => Except.error ()
  | Node.file FileContent.malformed => Except.error ()
  | Node.file (FileContent.manifest m) =>
    match m.name with
    | none => Except.error ()
    | some nm =>
      match m.«export» with
      | none => Except.ok { name := nm, «export» := default_export }
      | some none => Except.ok { name := nm, «export» := { build_type := default_build_type } }
      | some (some bt) => Except.ok { name := nm, «export» := { build_type := bt } }

/-- Body of `check_path`, factored over the resolved node: `fname` is
`dir.file_name()` (the final path component, `none` for e.g. `.`), `n` the
node the path resolves to (`none` when nothing exists there), and `p` the
full path stored in a `Found` entry (`dir.to_path_buf()`). -/
def check_node (fname : Option String) (n : Option Node) (p : List String) : SearchOutcome :=
  match n with
  | none => SearchOutcome.IsFile
  | some (Node.file _) => SearchOutcome.IsFile
  | some (Node.dir _ ents) =>
    if (match fname with
        | some s => startsWithDot s
        | none => false) then
      SearchOutcome.Ignored
    else if IGNORE_MARKERS.any (fun m => (entryLookup ents m).isSome) then
      SearchOutcome.Ignored
    else
      match entryLookup ents "package.xml" with
      | some pkgXml =>
        match parse_package pkgXml with
        | Except.ok pkg => SearchOutcome.Found { pkg := pkg, path := p }
        | Except.error _ => SearchOutcome.Recurse
      | none => SearchOutcome.Recurse

/-- Rust: `fn check_path(dir: &Path) -> SearchOutcome`, as a function of the
filesystem root and the path being classified. -/
def check_path (fs : Node) (p : List String) : SearchOutcome :=
  check_node p.getLast? (lookup fs p) p

mutual

/-- Body of `find_packages` on an existing node: a file returns `Ok` with
nothing emitted (the `!dir.is_dir()` guard); `fs::read_dir` on an
unreadable directory is an error propagated by `?`; otherwise the entries
are scanned in order. -/
def walk_node (node : Node) (p : List String) (rec : Bool) :
    Except Unit (List Entry) :=
  match node with
  | Node.file _ => Except.ok []
  | Node.dir false _ => Except.error ()
  | Node.dir true ents => scan_entries ents p rec

/-- The `for entry in (fs::read_dir(dir)?).flatten()` loop of `find_packages`:
`Err` elements are skipped by `.flatten()`; a `Found` child is pushed; a
`Recurse` child is recursed into when `recurse` is set, with the recursive
call's error propagated by `?`; `Ignored` and `IsFile` children are skipped. -/
def scan_entries (ents : EntList) (p : List String) (rec : Bool) :
    Except Unit (List Entry) :=
  match ents with
  | EntList.nil => Except.ok []
  | EntList.errCons rest => scan_entries rest p rec
  | EntList.cons nm child rest =>
    match check_node (some nm) (some child) (p ++ [nm]) with
    | SearchOutcome.Found e => Except.map (fun l => e :: l) (scan_entries rest p rec)
    | SearchOutcome.Recurse =>
      if rec then
        match walk_node child (p ++ [nm]) rec with
        | Except.error err => Except.error err
        | Except.ok l1 => Except.map (fun l2 => l1 ++ l2) (scan_entries rest p rec)
      else scan_entries rest p rec
    | SearchOutcome.Ignored => scan_entries rest p rec
    | SearchOutcome.IsFile => scan_entries rest p rec

end

/-- Rust: `fn find_packages(dir: &Path, results, recurse) -> io::Result<()>`,
as a function of the node the directory path resolves to: a nonexistent
path is not a directory, so the `!dir.is_dir()` guard returns `Ok` with
nothing emitted; an existing node is handled by `walk_node`. -/
def find_packages (n : Option Node) (p : List String) (rec : Bool) :
    Except Unit (List Entry) :=
  match n with
  | none => Except.ok []
  | some node => walk_node node p rec

/-- Rust: `fn find_wrapper(dir, results, recurse)`: push the root itself when
it classifies as `Found`, then scan its children with `find_packages` —
note the scan runs regardless of the root's classification. -/
def find_wrapper (fs : Node) (p : List String) (rec : Bool) :
    Except Unit (List Entry) :=
  let rootHits :=
    match check_path fs p with
    | SearchOutcome.Found e => [e]
    | _ => []
  Except.map (fun l => rootHits ++ l) (find_packages (lookup fs p) p rec)

/-- Tail of itertools' `dedup_by` below a kept element `cur`: an element
identified with `cur` is dropped (and `cur` stays the comparison point), a
distinct element is kept and becomes the new comparison point. -/
def dedupByAux {α : Type} (same : α → α → Bool) (cur : α) : List α → List α
  | [] => []
  | b :: rest =>
    if same cur b then dedupByAux same cur rest else b :: dedupByAux same b rest

/-- Itertools' `dedup_by`: collapse runs of consecutive elements that the
predicate identifies, keeping the first element of each run. -/
def dedupBy {α : Type} (same : α → α → Bool) : List α → List α
  | [] => []
  | a :: rest => a :: dedupByAux same a rest

/-- Rust: `fn preprocess_paths(raw) -> Vec<PathBuf>`: adjacent-dedup, then
canonicalize each path keeping the original on failure
(`p.canonicalize().unwrap_or(p.clone())`), then adjacent-dedup again.
`canon` is the abstract `Path::canonicalize`, `none` modelling failure. -/
def preprocess_paths (canon : List String → Option (List String))
    (raw : List (List String)) : List (List String) :=
  dedupBy (fun a b => a == b)
    ((dedupBy (fun a b => a == b) raw).map (fun p => (canon p).getD p))

/-- The sort key used in `main`: `|e| (&e.pkg.name, &e.path)`. -/
def entryKey (e : Entry) : String × List String := (e.pkg.name, e.path)

/-- Lexicographic order on sort keys: names compare as strings, ties broken
by the path compared component-wise. -/
def keyLe (a b : String × List String) : Bool :=
  decide (a.1 < b.1 ∨ (a.1 = b.1 ∧ a.2 ≤ b.2))

/-- The comparison in `main`'s `dedup_by`:
`a.pkg.name == b.pkg.name && a.path == b.path`. -/
def sameEntry (a b : Entry) : Bool :=
  a.pkg.name == b.pkg.name && a.path == b.path

/-- The aggregation in `main`'s `List` arm:
`res.iter().sorted_unstable_by_key(|e| (&e.pkg.name, &e.path)).dedup_by(...)`. -/
def aggregate (l : List Entry) : List Entry :=
  dedupBy sameEntry (l.mergeSort (fun a b => keyLe (entryKey a) (entryKey b)))

/-- A filesystem object as `try_symlink` can observe it at a path. -/
inductive FsObj where
  | symlinkTo (target : List String) : FsObj
  | regular : FsObj
  | directory : FsObj
deriving DecidableEq, Repr

/-- Filesystem state for the symlink provisioner: an association list from
absolute paths to objects. -/
abbrev SymFS := List (List String × FsObj)

/-- Look up the object at a path. -/
def fsLookup (fs : SymFS) (p : List String) : Option FsObj :=
  match fs with
  | [] => none
  | (q, o) :: rest => if q = p then some o else fsLookup rest p

/-- Rust `Path::exists`. -/
def fsExists (fs : SymFS) (p : List String) : Bool :=
  (fsLookup fs p).isSome

/-- Rust `Path::is_symlink`. -/
def fsIsSymlink (fs : SymFS) (p : List String) : Bool :=
  match fsLookup fs p with
  | some (FsObj.symlinkTo _) => true
  | _ => false

/-- Rust `std::fs::remove_file`: fails when nothing exists at the path,
otherwise removes the object. -/
def remove_file (fs : SymFS) (p : List String) : Except Unit SymFS :=
  if fsExists fs p then Except.ok (fs.filter (fun b => !(b.1 == p)))
  else Except.error ()

/-- Rust `std::os::unix::fs::symlink(original, link)`: fails with `EEXIST`
when any object already exists at `link`, otherwise creates the symlink. -/
def fsSymlink (fs : SymFS) (target link : List String) : Except Unit SymFS :=
  if fsExists fs link then Except.error ()
  else Except.ok ((link, FsObj.symlinkTo target) :: fs)

/-- Diagnostic lines printed by `try_symlink`, one constructor per
`print_unless_quiet!` site. -/
inductive Msg where
  | skipNoCMakeLists (name : String) (path : List String) : Msg
  | removingLink (path : List String) : Msg
  | removeFailed : Msg
  | createFailed : Msg
  | created (name : String) (link target : List String) : Msg
deriving DecidableEq, Repr

/-- Rust: the `print_unless_quiet!` macro. -/
def print_unless_quiet (quiet : Bool) (m : Msg) : List Msg :=
  if quiet then [] else [m]

/-- Shared tail of `try_symlink`: the `std::os::unix::fs::symlink` call and
its two outcomes (error reported, or success reported). -/
def symlink_step (fs : SymFS) (target link : List String) (name : String)
    (quiet : Bool) : SymFS × List Msg :=
  match fsSymlink fs target link with
  | Except.error _ => (fs, print_unless_quiet quiet Msg.createFailed)
  | Except.ok fs2 => (fs2, print_unless_quiet quiet (Msg.created name link target))

/-- Rust: `fn try_symlink(entry, build_base, quiet, force)`. Returns the new
filesystem state and the diagnostics printed, in order. -/
def try_symlink (fs : SymFS) (entry : Entry) (build_base : List String)
    (quiet force : Bool) : SymFS × List Msg :=
  let cmake_file := entry.path ++ ["CMakeLists.txt"]
  if !(fsExists fs cmake_file) then
    (fs, print_unless_quiet quiet (Msg.skipNoCMakeLists entry.pkg.name cmake_file))
  else
    let link_in_src_space := entry.path ++ ["compile_commands.json"]
    let bb := build_base ++ [entry.pkg.name, "compile_commands.json"]
    if fsIsSymlink fs link_in_src_space && force then
      let m1 := print_unless_quiet quiet (Msg.removingLink link_in_src_space)
      match remove_file fs link_in_src_space with
      | Except.error _ => (fs, m1 ++ print_unless_quiet quiet Msg.removeFailed)
      | Except.ok fs2 =>
        let r := symlink_step fs2 bb link_in_src_space entry.pkg.name quiet
        (r.1, m1 ++ r.2)
    else
      symlink_step fs bb link_in_src_space entry.pkg.name quiet

/-- The `for e in res { try_symlink(...) }` loop of `main`'s `Symlink` arm:
every entry is processed in order, threading the filesystem state. -/
def symlink_batch (fs : SymFS) (entries : List Entry) (build_base : List String)
    (quiet force : Bool) : SymFS × List Msg :=
  match entries with
  | [] => (fs, [])
  | e :: rest =>
    let r1 := try_symlink fs e build_base quiet force
    let r2 := symlink_batch r1.1 rest build_base quiet force
    (r2.1, r1.2 ++ r2.2)

/-- A minimal well-formed manifest file node declaring only a name. -/
def pkgManifest (nm : String) : Node :=
  Node.file (FileContent.manifest { name := some nm, «export» := none })

/-- A scan root that is itself a package and contains a nested package. -/
def fsFoundRoot : Node :=
  Node.dir true (entsOf
    [("package.xml", pkgManifest "outer"),
     ("inner", Node.dir true (entsOf [("package.xml", pkgManifest "innerpkg")]))])

/-- The entry for the root package of `fsFoundRoot`. -/
def outerEntry : Entry :=
  { pkg := { name := "outer", «export» := default_export }, path := [] }

/-- The entry for the nested package of `fsFoundRoot`. -/
def innerEntry : Entry :=
  { pkg := { name := "innerpkg", «export» := default_export }, path := ["inner"] }

/-- A readable root whose first child directory is unreadable and whose
second child is a package. -/
def fsLockedChild : Node :=
  Node.dir true (entsOf
    [("locked", Node.dir false EntList.nil),
     ("pkg", Node.dir true (entsOf [("package.xml", pkgManifest "p")]))])

/-- A tree holding the directory `.hidden/b`: a directory whose path has a
dot component but whose own base name does not start with a dot. -/
def fsDotComponent : Node :=
  Node.dir true (entsOf [(".hidden", Node.dir true (entsOf [("b", Node.dir true EntList.nil)]))])

/-- A directory containing both an ignore marker and a parseable manifest. -/
def fsMarker : Node :=
  Node.dir true (entsOf
    [("COLCON_IGNORE", Node.file FileContent.malformed),
     ("package.xml", pkgManifest "marked")])

/-- A directory whose manifest declares only a name. -/
def fsDefaultBt : Node :=
  Node.dir true (entsOf [("package.xml", pkgManifest "alpha")])

/-- A directory whose manifest declares a name and an explicit build type. -/
def fsExplicitBt : Node :=
  Node.dir true (entsOf
    [("package.xml",
      Node.file (FileContent.manifest { name := some "beta", «export» := some (some "ament_cmake") }))])

/-- A directory whose manifest file is malformed. -/
def fsBadManifest : Node :=
  Node.dir true (entsOf [("package.xml", Node.file FileContent.malformed)])

/-- A discovered entry used in the symlink examples. -/
def entA : Entry :=
  { pkg := { name := "pkgA", «export» := default_export }, path := ["src", "pkgA"] }

/-- Symlink-state example: `CMakeLists.txt` present and a symlink already at
`compile_commands.json`. -/
def fsLinkPresent : SymFS :=
  [(["src", "pkgA", "CMakeLists.txt"], FsObj.regular),
   (["src", "pkgA", "compile_commands.json"], FsObj.symlinkTo ["old"])]

/-- Symlink-state example: `CMakeLists.txt` present and a regular file at
`compile_commands.json`. -/
def fsRegularAtLink : SymFS :=
  [(["src", "pkgA", "CMakeLists.txt"], FsObj.regular),
   (["src", "pkgA", "compile_commands.json"], FsObj.regular)]

/-- C10: a scan root that is not a directory — a file, or a path that does
not exist — produces no entries and returns success from `find_wrapper`,
in both the non-recursive and the recursive traversal mode: `check_path`
yields `IsFile` (so nothing is pushed for the root) and `find_packages`
returns `Ok(())` from its `!dir.is_dir()` guard. -/
theorem c10_nondir_root_ok (fs : Node) (p : List String) (rec : Bool)
    (h : lookup fs p = none ∨ ∃ c, lookup fs p = some (Node.file c)) :
    find_wrapper fs p rec = Except.ok [] := by
  rcases h with h | ⟨c, h⟩ <;>
    simp [find_wrapper, check_path, h, check_node, find_packages, walk_node, Except.map]

/-- Witness for C10 at a concrete input: scanning a path that does not
exist in an empty root. -/
theorem c10_nondir_root_ok_witness :
    find_wrapper (Node.dir true EntList.nil) ["missing"] true = Except.ok [] :=
  c10_nondir_root_ok (Node.dir true EntList.nil) ["missing"] true (Or.inl rfl)

/-- C4 (amended): the ignore rules of `check_path` — a base name (final
path component) starting with `.`, or the presence of a directory entry
named after any of the three `IGNORE_MARKERS` — force `Ignored`,
regardless of the remaining directory contents, so in particular even when
a parseable manifest is present. (The original claim quantified over any
sub-path component starting with `.`; the code only inspects
`dir.file_name()`, see the counterexample.) -/
theorem c4_ignore_amended (fs : Node) (p : List String) (r : Bool)
    (ents : EntList)
    (hdir : lookup fs p = some (Node.dir r ents))
    (h : (∃ nm, p.getLast? = some nm ∧ startsWithDot nm = true)
        ∨ ∃ m ∈ IGNORE_MARKERS, (entryLookup ents m).isSome = true) :
    check_path fs p = SearchOutcome.Ignored := by
  unfold check_path
  rw [hdir]
  unfold check_node
  rcases h with ⟨nm, hlast, hdot⟩ | ⟨m, hm, hex⟩
  · rw [hlast]
    simp [hdot]
  · by_cases hd : (match p.getLast? with | some s => startsWithDot s | none => false) = true
    · simp [hd]
    · have hany : IGNORE_MARKERS.any (fun m => (entryLookup ents m).isSome) = true :=
        List.any_eq_true.mpr ⟨m, hm, hex⟩
      simp only [Bool.not_eq_true] at hd
      simp [hd, hany]

/-- Witness for C4 at a concrete input: a directory containing both
`COLCON_IGNORE` and a parseable `package.xml` is classified `Ignored`. -/
theorem c4_ignore_amended_witness : check_path fsMarker [] = SearchOutcome.Ignored :=
  c4_ignore_amended fsMarker [] true _ rfl
    (Or.inr ⟨"COLCON_IGNORE", by simp [IGNORE_MARKERS], rfl⟩)

/-- Counterexample to C4 as stated: the directory `.hidden/b` of
`fsDotComponent` has a sub-path component starting with `.`, exists as a
directory, yet `check_path` classifies it `Recurse`, not `Ignored` — the
code inspects only the final component (`dir.file_name()`). -/
theorem c4_dot_component_counterexample :
    (∃ c ∈ [".hidden", "b"], startsWithDot c = true)
    ∧ (∃ r ents, lookup fsDotComponent [".hidden", "b"] = some (Node.dir r ents))
    ∧ check_path fsDotComponent [".hidden", "b"] ≠ SearchOutcome.Ignored := by
  refine ⟨⟨".hidden", by simp, rfl⟩, ⟨true, EntList.nil, rfl⟩, ?_⟩
  decide

/-- C5: for a directory that survives the ignore rules and holds a
well-formed manifest, `check_path` yields `Found`; the build type is the
`default_build_type` sentinel (`"ros.catkin"`) when the export section is
absent or lacks a build-type field, and is exactly the declared value when
present — the serde defaulting of `Package`/`Export`. -/
theorem c5_build_type_defaulting (fs : Node) (p : List String) (r : Bool)
    (ents : EntList) (mx : ManifestXml) (nm : String)
    (hdir : lookup fs p = some (Node.dir r ents))
    (hdot : ∀ s, p.getLast? = some s → startsWithDot s = false)
    (hmark : ∀ m ∈ IGNORE_MARKERS, entryLookup ents m = none)
    (hpkg : entryLookup ents "package.xml" = some (Node.file (FileContent.manifest mx)))
    (hname : mx.name = some nm) :
    (mx.«export» = none ∨ mx.«export» = some none →
      check_path fs p = SearchOutcome.Found
        { pkg := { name := nm, «export» := { build_type := default_build_type } }, path := p })
    ∧ ∀ bt, mx.«export» = some (some bt) →
      check_path fs p = SearchOutcome.Found
        { pkg := { name := nm, «export» := { build_type := bt } }, path := p } := by
  have hd : (match p.getLast? with | some s => startsWithDot s | none => false) = false := by
    cases hp : p.getLast? with
    | none => rfl
    | some s => exact hdot s hp
  have hany : IGNORE_MARKERS.any (fun m => (entryLookup ents m).isSome) = false := by
    simp only [List.any_eq_false]
    intro m hm
    simp [hmark m hm]
  constructor
  · intro hexp
    unfold check_path
    rw [hdir]
    unfold check_node
    rcases hexp with hexp | hexp <;>
      simp [hd, hany, hpkg, parse_package, hname, hexp, default_export, default_build_type]
  · intro bt hexp
    unfold check_path
    rw [hdir]
    unfold check_node
    simp [hd, hany, hpkg, parse_package, hname, hexp]

/-- Witness for C5 at concrete inputs: a manifest with only a name yields
the default build type, and a manifest with an explicit build type yields
exactly that value. -/
theorem c5_build_type_defaulting_witness :
    check_path fsDefaultBt [] = SearchOutcome.Found
      { pkg := { name := "alpha", «export» := { build_type := default_build_type } }, path := [] }
    ∧ check_path fsExplicitBt [] = SearchOutcome.Found
      { pkg := { name := "beta", «export» := { build_type := "ament_cmake" } }, path := [] } := by
  constructor
  · exact (c5_build_type_defaulting fsDefaultBt [] true _ _ "alpha" rfl
      (by intro s h; cases h) (by intro m hm; fin_cases hm <;> rfl) rfl rfl).1 (Or.inl rfl)
  · exact (c5_build_type_defaulting fsExplicitBt [] true _ _ "beta" rfl
      (by intro s h; cases h) (by intro m hm; fin_cases hm <;> rfl) rfl rfl).2 "ament_cmake" rfl

/-- C6: when the manifest file exists but `parse_package` fails — I/O
failure opening it, malformed markup, or a missing name element —
`check_path` falls through to `Recurse`: the parse error never reaches the
caller of the classification, and discovery continues into the
directory's children. -/
theorem c6_parse_error_recurse (fs : Node) (p : List String) (r : Bool)
    (ents : EntList) (nxml : Node) (err : Unit)
    (hdir : lookup fs p = some (Node.dir r ents))
    (hdot : ∀ s, p.getLast? = some s → startsWithDot s = false)
    (hmark : ∀ m ∈ IGNORE_MARKERS, entryLookup ents m = none)
    (hpkg : entryLookup ents "package.xml" = some nxml)
    (herr : parse_package nxml = Except.error err) :
    check_path fs p = SearchOutcome.Recurse := by
  have hd : (match p.getLast? with | some s => startsWithDot s | none => false) = false := by
    cases hp : p.getLast? with
    | none => rfl
    | some s => exact hdot s hp
  have hany : IGNORE_MARKERS.any (fun m => (entryLookup ents m).isSome) = false := by
    simp only [List.any_eq_false]
    intro m hm
    simp [hmark m hm]
  unfold check_path
  rw [hdir]
  unfold check_node
  simp [hd, hany, hpkg, herr]

/-- Witness for C6 at a concrete input: a malformed `package.xml` makes the
directory classify as `Recurse`. -/
theorem c6_parse_error_recurse_witness :
    check_path fsBadManifest [] = SearchOutcome.Recurse :=
  c6_parse_error_recurse fsBadManifest [] true _ (Node.file FileContent.malformed) ()
    rfl (by intro s h; cases h) (by intro m hm; fin_cases hm <;> rfl) rfl rfl

/-- C1 (amended): during child enumeration, a child classified `Found` is
emitted and never recursed into — the scan's result is
`e` consed onto the result for the remaining siblings, independent of
anything below the `Found` child, so no descendant of a `Found` child is
classified or emitted. A scan root that itself classifies `Found`,
however, is still enumerated: `find_wrapper` pushes the root entry and
then runs `find_packages` over the root's children regardless (see the
counterexample for a descendant of a `Found` root being emitted). -/
theorem c1_found_leaf_amended (nm : String) (child : Node) (rest : EntList)
    (p : List String) (rec : Bool) (e e2 : Entry) (fs : Node)
    (hfound : check_node (some nm) (some child) (p ++ [nm]) = SearchOutcome.Found e)
    (hroot : check_path fs p = SearchOutcome.Found e2) :
    scan_entries (EntList.cons nm child rest) p rec
      = Except.map (fun l => e :: l) (scan_entries rest p rec)
    ∧ find_wrapper fs p rec
      = Except.map (fun l => e2 :: l) (find_packages (lookup fs p) p rec) := by
  constructor
  · rw [scan_entries, hfound]
  · unfold find_wrapper
    rw [hroot]
    rfl

/-- Witness for C1 (amended) at concrete inputs: the `Found` child `inner`
of `fsFoundRoot` contributes exactly its entry, and the `Found` root of
`fsFoundRoot` is still followed by a scan of its children. -/
theorem c1_found_leaf_amended_witness :
    scan_entries
        (EntList.cons "inner" (Node.dir true (entsOf [("package.xml", pkgManifest "innerpkg")]))
          EntList.nil) [] false
      = Except.map (fun l => innerEntry :: l) (scan_entries EntList.nil [] false)
    ∧ find_wrapper fsFoundRoot [] false
      = Except.map (fun l => outerEntry :: l) (find_packages (lookup fsFoundRoot []) [] false) :=
  c1_found_leaf_amended "inner"
    (Node.dir true (entsOf [("package.xml", pkgManifest "innerpkg")]))
    EntList.nil [] false innerEntry outerEntry fsFoundRoot rfl rfl

/-- Counterexample to C1 as stated: the scan root `fsFoundRoot` classifies
as `Found`, yet its descendant `inner` (a nested package directory) is
still classified and emitted by `find_wrapper` — even in the
non-recursive mode — because `find_wrapper` runs `find_packages` on the
root unconditionally after pushing the root's own entry. -/
theorem c1_found_root_counterexample :
    check_path fsFoundRoot [] = SearchOutcome.Found outerEntry
    ∧ find_wrapper fsFoundRoot [] false = Except.ok [outerEntry, innerEntry]
    ∧ innerEntry.path = outerEntry.path ++ ["inner"] :=
  ⟨rfl, rfl, rfl⟩

/-- C2 (amended): `fs::read_dir` failures are hard errors at every level,
not only at the root: an unreadable scan root is an error, and an
unreadable subdirectory that the recursive scan descends into propagates
`Err` through `?`, aborting the whole scan (remaining siblings are not
scanned). Only per-entry enumeration failures — `Err` elements yielded by
the `ReadDir` iterator — are skipped, by `.flatten()`. -/
theorem c2_readdir_error_amended (ents ents2 rest : EntList) (p : List String)
    (rec : Bool) (nm : String)
    (hrec : check_node (some nm) (some (Node.dir false ents2)) (p ++ [nm])
      = SearchOutcome.Recurse) :
    find_packages (some (Node.dir false ents)) p rec = Except.error ()
    ∧ scan_entries (EntList.errCons rest) p rec = scan_entries rest p rec
    ∧ scan_entries (EntList.cons nm (Node.dir false ents2) rest) p true
      = Except.error () := by
  refine ⟨rfl, rfl, ?_⟩
  rw [scan_entries, hrec]
  rfl

/-- Witness for C2 (amended) at concrete inputs: an unreadable root errors,
an `Err` directory entry is skipped, and an unreadable child directory
aborts the recursive scan. -/
theorem c2_readdir_error_amended_witness :
    find_packages (some (Node.dir false EntList.nil)) [] true = Except.error ()
    ∧ scan_entries (EntList.errCons EntList.nil) [] true
      = scan_entries EntList.nil [] true
    ∧ scan_entries (EntList.cons "locked" (Node.dir false EntList.nil) EntList.nil) [] true
      = Except.error () :=
  c2_readdir_error_amended EntList.nil EntList.nil EntList.nil [] true "locked" rfl

/-- Counterexample to C2 as stated: in `fsLockedChild` the unreadable
directory is the non-root child `locked`; the claim says only that subtree
is skipped and the scan still succeeds with the sibling package `pkg`, but
the recursive scan propagates the `read_dir` failure as a hard error and
the sibling package (which `check_path` classifies `Found`) is lost. -/
theorem c2_readdir_error_counterexample :
    find_wrapper fsLockedChild [] true = Except.error ()
    ∧ check_path fsLockedChild ["pkg"] = SearchOutcome.Found
        { pkg := { name := "p", «export» := default_export }, path := ["pkg"] } :=
  ⟨rfl, rfl⟩

/-- The tail collapse only ever drops elements. -/
theorem dedupByAux_sublist {α : Type} (same : α → α → Bool) :
    ∀ (cur : α) (l : List α), List.Sublist (dedupByAux same cur l) l
  | _, [] => List.Sublist.refl []
  | cur, b :: rest => by
    rw [dedupByAux]
    by_cases h : same cur b = true
    · rw [if_pos h]
      exact (dedupByAux_sublist same cur rest).trans (List.sublist_cons_self b rest)
    · rw [if_neg h]
      exact (dedupByAux_sublist same b rest).cons₂ b

/-- `dedupBy` only ever drops elements. -/
theorem dedupBy_sublist {α : Type} (same : α → α → Bool) :
    ∀ l : List α, List.Sublist (dedupBy same l) l
  | [] => List.Sublist.refl []
  | a :: rest => (dedupByAux_sublist same a rest).cons₂ a

/-- Below a comparison point `cur`, the collapsed tail never starts with an
element identified with `cur`, and never keeps two adjacent identified
elements. -/
theorem chain_dedupByAux {α : Type} (same : α → α → Bool) :
    ∀ (cur : α) (l : List α),
      List.Chain' (fun a b => same a b = false) (cur :: dedupByAux same cur l)
  | cur, [] => List.chain'_singleton cur
  | cur, b :: rest => by
    rw [dedupByAux]
    by_cases h : same cur b = true
    · rw [if_pos h]
      exact chain_dedupByAux same cur rest
    · rw [if_neg h]
      exact List.chain'_cons.mpr ⟨Bool.eq_false_iff.mpr h, chain_dedupByAux same b rest⟩

/-- No two adjacent elements of a `dedupBy` result are identified by the
comparison. -/
theorem chain_dedupBy {α : Type} (same : α → α → Bool) (l : List α) :
    List.Chain' (fun a b => same a b = false) (dedupBy same l) := by
  cases l with
  | nil => exact List.chain'_nil
  | cons a rest => exact chain_dedupByAux same a rest

/-- A tail without adjacent identified elements (including against the
comparison point) is unchanged by the collapse. -/
theorem dedupByAux_of_chain {α : Type} (same : α → α → Bool) :
    ∀ (cur : α) (l : List α),
      List.Chain' (fun a b => same a b = false) (cur :: l) →
      dedupByAux same cur l = l
  | _, [], _ => rfl
  | cur, b :: rest, h => by
    rw [dedupByAux]
    have h1 : same cur b = false := (List.chain'_cons.mp h).1
    rw [if_neg (by simp [h1])]
    rw [dedupByAux_of_chain same b rest (List.chain'_cons.mp h).2]

/-- A list without adjacent identified elements is unchanged by `dedupBy`. -/
theorem dedupBy_of_chain {α : Type} (same : α → α → Bool) :
    ∀ l : List α, List.Chain' (fun a b => same a b = false) l → dedupBy same l = l
  | [], _ => rfl
  | a :: rest, h => by
    rw [dedupBy, dedupByAux_of_chain same a rest h]

/-- `dedupBy` is idempotent. -/
theorem dedupBy_idem {α : Type} (same : α → α → Bool) (l : List α) :
    dedupBy same (dedupBy same l) = dedupBy same l :=
  dedupBy_of_chain same (dedupBy same l) (chain_dedupBy same l)

/-- Mapping a function that fixes every element of a list is the identity. -/
theorem map_fix {α : Type} (f : α → α) :
    ∀ l : List α, (∀ a ∈ l, f a = a) → l.map f = l
  | [], _ => rfl
  | a :: rest, h => by
    rw [List.map_cons, h a (List.mem_cons_self a rest),
      map_fix f rest (fun b hb => h b (List.mem_cons_of_mem a hb))]

/-- C7: `preprocess_paths` is idempotent: running the dedup-canonicalize-
dedup pipeline on its own output returns that output unchanged. The
hypothesis is the stability of filesystem canonicalization across the two
calls: a path that canonicalizes to `q` leaves `q` canonicalizing to
itself (and a path that fails to canonicalize is kept unchanged by the
code, so nothing is needed for it). -/
theorem c7_preprocess_idempotent (canon : List String → Option (List String))
    (raw : List (List String))
    (hc : ∀ p q, canon p = some q → canon q = some q) :
    preprocess_paths canon (preprocess_paths canon raw)
      = preprocess_paths canon raw := by
  have hff : ∀ x, (canon ((canon x).getD x)).getD ((canon x).getD x)
      = (canon x).getD x := by
    intro x
    cases hx : canon x with
    | none => simp [hx]
    | some q => simp [hx, hc x q hx]
  unfold preprocess_paths
  rw [dedupBy_idem]
  have hmap : (dedupBy (fun a b => a == b)
        (List.map (fun p => (canon p).getD p) (dedupBy (fun a b => a == b) raw))).map
        (fun p => (canon p).getD p)
      = dedupBy (fun a b => a == b)
        (List.map (fun p => (canon p).getD p) (dedupBy (fun a b => a == b) raw)) := by
    apply map_fix
    intro a ha
    have hmem : a ∈ List.map (fun p => (canon p).getD p)
        (dedupBy (fun a b => a == b) raw) :=
      (dedupBy_sublist _ _).mem ha
    obtain ⟨b, _, rfl⟩ := List.mem_map.mp hmem
    exact hff b
  rw [hmap, dedupBy_idem]

/-- Witness for C7 at a concrete input: the identity canonicalizer (which
is trivially stable) on a list with a repeated path. -/
theorem c7_preprocess_idempotent_witness :
    preprocess_paths (fun p => some p)
        (preprocess_paths (fun p => some p) [["a"], ["a"], ["b"]])
      = preprocess_paths (fun p => some p) [["a"], ["a"], ["b"]] :=
  c7_preprocess_idempotent (fun p => some p) [["a"], ["a"], ["b"]]
    (fun _ _ _ => rfl)

/-- A path holding a symlink holds an object. -/
theorem fsExists_of_isSymlink (fs : SymFS) (p : List String)
    (h : fsIsSymlink fs p = true) : fsExists fs p = true := by
  unfold fsIsSymlink at h
  unfold fsExists
  cases hl : fsLookup fs p with
  | none => rw [hl] at h; cases h
  | some o => rfl

/-- C8: when a symbolic link already exists at `link_path` and `force` is
false, `try_symlink` modifies nothing (the `symlink` syscall fails with
`EEXIST`), a failure message is reported (suppressed only by `quiet`), and
the batch loop of `main` continues with the remaining entries from the
unchanged filesystem state — the failure is per-entry and never raises a
hard error aborting the batch. -/
theorem c8_symlink_exists_no_force (fs : SymFS) (e : Entry) (rest : List Entry)
    (bb : List String) (quiet : Bool)
    (hcmake : fsExists fs (e.path ++ ["CMakeLists.txt"]) = true)
    (hlink : fsIsSymlink fs (e.path ++ ["compile_commands.json"]) = true) :
    symlink_batch fs (e :: rest) bb quiet false
      = ((symlink_batch fs rest bb quiet false).1,
         print_unless_quiet quiet Msg.createFailed
           ++ (symlink_batch fs rest bb quiet false).2) := by
  have hex : fsExists fs (e.path ++ ["compile_commands.json"]) = true :=
    fsExists_of_isSymlink fs _ hlink
  have htry : try_symlink fs e bb quiet false
      = (fs, print_unless_quiet quiet Msg.createFailed) := by
    simp [try_symlink, hcmake, hlink, symlink_step, fsSymlink, hex]
  simp [symlink_batch, htry]

/-- Witness for C8 at a concrete input: a pre-existing symlink at
`compile_commands.json` with `force = false` and `quiet = false`. -/
theorem c8_symlink_exists_no_force_witness :
    symlink_batch fsLinkPresent [entA] ["build"] false false
      = ((symlink_batch fsLinkPresent [] ["build"] false false).1,
         print_unless_quiet false Msg.createFailed
           ++ (symlink_batch fsLinkPresent [] ["build"] false false).2) :=
  c8_symlink_exists_no_force fsLinkPresent entA [] ["build"] false rfl rfl

/-- C9: `try_symlink` never deletes an object at `link_path` that is not a
symbolic link: whatever `force` is, when the object at `link_path` is not
a symlink the removal branch is not taken (its guard is
`link.is_symlink() && force`), the filesystem state is returned unchanged,
and — when a `CMakeLists.txt` is present so the entry is not skipped — the
subsequent link creation fails with `EEXIST` and is reported (unless
`quiet`). -/
theorem c9_no_delete_nonsymlink (fs : SymFS) (e : Entry) (bb : List String)
    (quiet force : Bool) (o : FsObj)
    (hobj : fsLookup fs (e.path ++ ["compile_commands.json"]) = some o)
    (hns : ∀ t, o ≠ FsObj.symlinkTo t) :
    (try_symlink fs e bb quiet force).1 = fs
    ∧ (fsExists fs (e.path ++ ["CMakeLists.txt"]) = true → quiet = false →
        Msg.createFailed ∈ (try_symlink fs e bb quiet force).2) := by
  have hsym : fsIsSymlink fs (e.path ++ ["compile_commands.json"]) = false := by
    unfold fsIsSymlink
    rw [hobj]
    cases o with
    | symlinkTo t => exact absurd rfl (hns t)
    | regular => rfl
    | directory => rfl
  have hex : fsExists fs (e.path ++ ["compile_commands.json"]) = true := by
    unfold fsExists
    rw [hobj]
    rfl
  by_cases hc : fsExists fs (e.path ++ ["CMakeLists.txt"]) = true
  · have htry : try_symlink fs e bb quiet force
        = (fs, print_unless_quiet quiet Msg.createFailed) := by
      simp [try_symlink, hc, hsym, symlink_step, fsSymlink, hex]
    rw [htry]
    exact ⟨rfl, fun _ hq => by simp [print_unless_quiet, hq]⟩
  · have hc2 : fsExists fs (e.path ++ ["CMakeLists.txt"]) = false := by
      simpa using hc
    have htry : try_symlink fs e bb quiet force
        = (fs, print_unless_quiet quiet
            (Msg.skipNoCMakeLists e.pkg.name (e.path ++ ["CMakeLists.txt"]))) := by
      simp [try_symlink, hc2]
    rw [htry]
    exact ⟨rfl, fun h _ => absurd h hc⟩

/-- Witness for C9 at a concrete input: a regular file at
`compile_commands.json`, with `force = true` and `quiet = false`. -/
theorem c9_no_delete_nonsymlink_witness :
    (try_symlink fsRegularAtLink entA ["build"] false true).1 = fsRegularAtLink
    ∧ (fsExists fsRegularAtLink (entA.path ++ ["CMakeLists.txt"]) = true →
        false = false →
        Msg.createFailed ∈ (try_symlink fsRegularAtLink entA ["build"] false true).2) :=
  c9_no_delete_nonsymlink fsRegularAtLink entA ["build"] false true FsObj.regular
    rfl (fun _ h => FsObj.noConfusion h)

/-- The key order is transitive. -/
theorem keyLe_trans (a b c : String × List String)
    (h1 : keyLe a b = true) (h2 : keyLe b c = true) : keyLe a c = true := by
  simp only [keyLe, decide_eq_true_eq] at h1 h2 ⊢
  rcases h1 with h1 | ⟨h1, h1'⟩ <;> rcases h2 with h2 | ⟨h2, h2'⟩
  · exact Or.inl (h1.trans h2)
  · exact Or.inl (h2 ▸ h1)
  · exact Or.inl (h1 ▸ h2)
  · exact Or.inr ⟨h1.trans h2, le_trans h1' h2'⟩

/-- The key order is total. -/
theorem keyLe_total (a b : String × List String) :
    (keyLe a b || keyLe b a) = true := by
  simp only [keyLe, Bool.or_eq_true, decide_eq_true_eq]
  rcases lt_trichotomy a.1 b.1 with h | h | h
  · exact Or.inl (Or.inl h)
  · rcases le_total a.2 b.2 with h2 | h2
    · exact Or.inl (Or.inr ⟨h, h2⟩)
    · exact Or.inr (Or.inr ⟨h.symm, h2⟩)
  · exact Or.inr (Or.inl h)

/-- The key order is antisymmetric. -/
theorem keyLe_antisymm (a b : String × List String)
    (h1 : keyLe a b = true) (h2 : keyLe b a = true) : a = b := by
  simp only [keyLe, decide_eq_true_eq] at h1 h2
  rcases h1 with h1 | ⟨h1, h1'⟩ <;> rcases h2 with h2 | ⟨h2, h2'⟩
  · exact absurd (h1.trans h2) (lt_irrefl a.1)
  · exact absurd h1 (h2 ▸ lt_irrefl b.1)
  · exact absurd h2 (h1 ▸ lt_irrefl a.1)
  · exact Prod.ext h1 (le_antisymm h1' h2')

/-- `main`'s `dedup_by` comparison identifies exactly the entries with
equal sort keys. -/
theorem sameEntry_iff (a b : Entry) :
    sameEntry a b = true ↔ entryKey a = entryKey b := by
  simp [sameEntry, entryKey, Prod.ext_iff]

/-- Every key of the input to the collapse survives it: the dropped
element is always identified with a kept one. -/
theorem key_surj_dedupByAux :
    ∀ (cur : Entry) (l : List Entry) (a : Entry), a ∈ cur :: l →
      ∃ b ∈ cur :: dedupByAux sameEntry cur l, entryKey b = entryKey a
  | cur, [], a, ha => by
    simp only [List.mem_singleton] at ha
    exact ⟨cur, by simp, ha ▸ rfl⟩
  | cur, b :: rest, a, ha => by
    rw [dedupByAux]
    by_cases h : sameEntry cur b = true
    · rw [if_pos h]
      rcases List.mem_cons.mp ha with rfl | ha2
      · exact key_surj_dedupByAux a rest a (List.mem_cons_self a rest)
      rcases List.mem_cons.mp ha2 with rfl | ha3
      · obtain ⟨c, hc, hkey⟩ :=
          key_surj_dedupByAux cur rest cur (List.mem_cons_self cur rest)
        exact ⟨c, hc, hkey.trans ((sameEntry_iff cur a).mp h)⟩
      · exact key_surj_dedupByAux cur rest a (List.mem_cons_of_mem cur ha3)
    · rw [if_neg h]
      rcases List.mem_cons.mp ha with rfl | ha2
      · exact ⟨a, List.mem_cons_self a _, rfl⟩
      · obtain ⟨c, hc, hk⟩ := key_surj_dedupByAux b rest a ha2
        exact ⟨c, List.mem_cons_of_mem cur hc, hk⟩

/-- Every key of the input to `dedupBy sameEntry` appears in its output. -/
theorem key_surj_dedupBy (l : List Entry) (a : Entry) (ha : a ∈ l) :
    ∃ b ∈ dedupBy sameEntry l, entryKey b = entryKey a := by
  cases l with
  | nil => cases ha
  | cons x xs => exact key_surj_dedupByAux x xs a ha

/-- Collapsing a key-sorted list leaves pairwise-distinct keys. -/
theorem pairwise_ne_dedupByAux :
    ∀ (cur : Entry) (l : List Entry),
      List.Pairwise (fun a b => keyLe (entryKey a) (entryKey b) = true) (cur :: l) →
      List.Pairwise (fun a b => entryKey a ≠ entryKey b)
        (cur :: dedupByAux sameEntry cur l)
  | _, [], _ => by simp [dedupByAux]
  | cur, b :: rest, hp => by
    rw [dedupByAux]
    have hp1 := List.pairwise_cons.mp hp
    have hp2 := List.pairwise_cons.mp hp1.2
    by_cases h : sameEntry cur b = true
    · rw [if_pos h]
      exact pairwise_ne_dedupByAux cur rest
        (List.pairwise_cons.mpr
          ⟨fun x hx => hp1.1 x (List.mem_cons_of_mem b hx), hp2.2⟩)
    · rw [if_neg h]
      have hkne : entryKey cur ≠ entryKey b :=
        fun hk => h ((sameEntry_iff cur b).mpr hk)
      refine List.pairwise_cons.mpr ⟨?_, pairwise_ne_dedupByAux b rest hp1.2⟩
      intro x hx
      rcases List.mem_cons.mp hx with rfl | hx2
      · exact hkne
      · have hxrest : x ∈ rest := (dedupByAux_sublist sameEntry b rest).subset hx2
        have h1 : keyLe (entryKey cur) (entryKey b) = true :=
          hp1.1 b (List.mem_cons_self b rest)
        have h2 : keyLe (entryKey b) (entryKey x) = true := hp2.1 x hxrest
        intro hke
        have h2' : keyLe (entryKey b) (entryKey cur) = true := by
          rw [hke]
          exact h2
        exact hkne (keyLe_antisymm (entryKey cur) (entryKey b) h1 h2')

/-- `dedupBy sameEntry` on a key-sorted list has pairwise-distinct keys. -/
theorem pairwise_ne_dedupBy (l : List Entry)
    (h : List.Pairwise (fun a b => keyLe (entryKey a) (entryKey b) = true) l) :
    List.Pairwise (fun a b => entryKey a ≠ entryKey b) (dedupBy sameEntry l) := by
  cases l with
  | nil => exact List.Pairwise.nil
  | cons x xs => exact pairwise_ne_dedupByAux x xs h

/-- C3: the listing printed by `main` — the discovered entries sorted by
the key `(name, path)` with `dedup_by` collapsing consecutive equal keys —
(i) is sorted ascending by `(name, path)`, (ii) contains no two entries
with equal name AND equal path (exact duplicates are collapsed to one),
and (iii) has exactly the key set of the input, so two entries with equal
name but different paths are both preserved. -/
theorem c3_aggregate_sorted_dedup (l : List Entry) :
    List.Pairwise (fun a b => keyLe (entryKey a) (entryKey b) = true) (aggregate l)
    ∧ List.Pairwise (fun a b => entryKey a ≠ entryKey b) (aggregate l)
    ∧ ∀ k, (∃ e ∈ aggregate l, entryKey e = k) ↔ ∃ e ∈ l, entryKey e = k := by
  have hsorted : List.Pairwise (fun a b => keyLe (entryKey a) (entryKey b) = true)
      (List.mergeSort l (fun a b => keyLe (entryKey a) (entryKey b))) := by
    exact @List.sorted_mergeSort Entry (fun a b => keyLe (entryKey a) (entryKey b))
      (fun a b c h1 h2 => keyLe_trans (entryKey a) (entryKey b) (entryKey c) h1 h2)
      (fun a b => keyLe_total (entryKey a) (entryKey b)) l
  have hsub := dedupBy_sublist sameEntry
    (List.mergeSort l (fun a b => keyLe (entryKey a) (entryKey b)))
  refine ⟨List.Pairwise.sublist hsub hsorted, pairwise_ne_dedupBy _ hsorted, fun k => ?_⟩
  constructor
  · rintro ⟨e, he, rfl⟩
    have := List.mem_mergeSort.mp (hsub.subset he)
    exact ⟨e, this, rfl⟩
  · rintro ⟨e, he, rfl⟩
    obtain ⟨b, hb, hk⟩ := key_surj_dedupBy _ e (List.mem_mergeSort.mpr he)
    exact ⟨b, hb, hk⟩

end Cols
